import Mathlib

/-!
Verification of the work-boost subscription system.

This file gives a shallow embedding, in Lean 4, of the parts of the
work-boost source that the specification's claims are about:

* the Deno-KV backed record store (`Database.upsertSubscription`,
  `disablePlatform`, `updateLastSentAt`, `getMessagesByUserId`) from
  `src/services/database/database.ts`;
* the Slack webhook validation middleware (`slackWebhookValidation`)
  with its timestamp freshness check and constant-time signature
  comparison;
* the two snapshots of `TelegramService.validateWebhook` (the hardened
  one, which fails closed in production, and the legacy one);
* the Telegram bot error handler (`bot.catch`) that disables the
  platform on a 403;
* the formatters (`SlackFormatter.format`, `TelegramFormatter.format`
  with its `splitMessage` length segmentation);
* the daily-summary fan-out (`processSubscription`, `batchProcess` and
  the per-run outcome counters).

Strings are modelled as Lean `String`s; character-level algorithms
(`splitMessage`, the XOR-accumulating comparisons) work on `List Char`.
JavaScript timestamps (`Date`) are modelled as `Nat` epoch values.
The external HMAC primitive and `JSON.parse` are abstract parameters:
they are library code, not code of this repository.
-/

/-! ## Entities (`src/entity/subscription.ts`, `src/entity/agent.ts`, `src/entity/task.ts`) -/

/-- `Platform = 'slack' | 'telegram'` from `src/entity/subscription.ts`. -/
inductive Platform where
  | slack
  | telegram
deriving DecidableEq, Repr

/-- The `platforms` field of a `Subscription`:
`{ slack?: string; telegram?: string }`. -/
structure PlatformMap where
  slack : Option String
  telegram : Option String
deriving DecidableEq, Repr

/-- Look up `subscription.platforms[platform]`. -/
def PlatformMap.get (m : PlatformMap) : Platform → Option String
  | .slack => m.slack
  | .telegram => m.telegram

/-- `Subscription` from `src/entity/subscription.ts`.  Timestamps are
epoch numbers. -/
structure Subscription where
  userId : String
  platforms : PlatformMap
  enabled : List Platform
  timezone : Option String
  subscribedAt : Nat
  lastSentAt : Option Nat
deriving DecidableEq, Repr

/-- A stored daily-work `Message` (`src/entity/task.ts`): id, owner,
free-text content, creation date (epoch number). -/
structure Message where
  id : String
  userId : String
  content : String
  date : Nat
deriving DecidableEq, Repr

/-- `TaskItem` from `src/entity/agent.ts`. -/
structure TaskItem where
  project : String
  task : String
deriving DecidableEq, Repr

/-- `DailyWorkReport` from `src/entity/agent.ts`: the three report
sections. -/
structure DailyWorkReport where
  completed : List TaskItem
  incomplete : List TaskItem
  planned : List TaskItem
deriving DecidableEq, Repr

/-- `AgentResponse = SucccessResponse | ErrorResponse` from
`src/entity/agent.ts`: either `{success: true, data}` or
`{success: false, error}`. -/
inductive AgentResponse where
  | ok (data : DailyWorkReport)
  | err (error : String)
deriving DecidableEq, Repr

/-! ## The record store (`src/services/database/database.ts`)

The Deno KV tables that the subscription claims touch are modelled as
one state with a field per key prefix:

* `['subscriptions', userId]`       → `subscriptions`
* `['subscriptions_by_user', userId]` → `subscriptionsByUser`
* `['active_subscriptions', userId]`  → `activeSubscriptions`
* `['messages_by_user', userId, _]`   → `messagesByUser` (the list of a
  user's stored messages, as enumerated by `kv.list`).
-/

/-- The KV state restricted to the tables the claims are about. -/
@[ext]
structure KvState where
  subscriptions : String → Option Subscription
  subscriptionsByUser : String → Option Subscription
  activeSubscriptions : String → Option Subscription
  messagesByUser : String → List Message

/-- Point update of a keyed table. -/
def kvUpdate (f : String → Option Subscription) (k : String)
    (v : Option Subscription) : String → Option Subscription :=
  fun x => if x = k then v else f x

/-- One primitive mutation inside a `kv.atomic()` transaction, as built
by `upsertSubscription`. -/
inductive KvOp where
  | setSubscription (uid : String) (s : Subscription)
  | setSubscriptionByUser (uid : String) (s : Subscription)
  | setActiveSubscription (uid : String) (s : Subscription)
  | deleteActiveSubscription (uid : String)

/-- Apply one primitive mutation. -/
def applyOp (st : KvState) : KvOp → KvState
  | .setSubscription uid s =>
      { st with subscriptions := kvUpdate st.subscriptions uid (some s) }
  | .setSubscriptionByUser uid s =>
      { st with subscriptionsByUser := kvUpdate st.subscriptionsByUser uid (some s) }
  | .setActiveSubscription uid s =>
      { st with activeSubscriptions := kvUpdate st.activeSubscriptions uid (some s) }
  | .deleteActiveSubscription uid =>
      { st with activeSubscriptions := kvUpdate st.activeSubscriptions uid none }

/-- Apply one atomic transaction (a committed `kv.atomic()` batch).
Deno KV commits are all-or-nothing, so a whole transaction is a single
state transition. -/
def applyTx (st : KvState) (ops : List KvOp) : KvState :=
  ops.foldl applyOp st

/-- The sequence of states observable while a list of transactions runs:
the state before anything, then the state after each commit.  Commits
are the only granularity at which other readers can observe the store. -/
def commitStates (st : KvState) (txs : List (List KvOp)) : List KvState :=
  txs.scanl applyTx st

/-- The operations `Database.upsertSubscription` packs into its single
`kv.atomic()` call: set the primary record, set the by-user mirror, and
set or delete the active-subscriptions index entry depending on
`subscription.enabled.length > 0`. -/
def upsertTxOps (s : Subscription) : List KvOp :=
  [KvOp.setSubscription s.userId s, KvOp.setSubscriptionByUser s.userId s] ++
    (if s.enabled.length > 0 then [KvOp.setActiveSubscription s.userId s]
     else [KvOp.deleteActiveSubscription s.userId])

/-- `Database.upsertSubscription` issues exactly one atomic commit. -/
def upsertCommitList (s : Subscription) : List (List KvOp) :=
  [upsertTxOps s]

/-- `Database.upsertSubscription`: the state after the single commit. -/
def upsertSubscription (s : Subscription) (st : KvState) : KvState :=
  applyTx st (upsertTxOps s)

/-- `Database.getSubscriptionByUserId`: read of the primary record. -/
def getSubscriptionByUserId (st : KvState) (userId : String) : Option Subscription :=
  st.subscriptions userId

/-- `Database.disablePlatform`: read the record, filter the platform out
of `enabled`, re-upsert; no-op when the subscriber is absent. -/
def disablePlatform (userId : String) (platform : Platform) (st : KvState) : KvState :=
  match getSubscriptionByUserId st userId with
  | none => st
  | some existing =>
      upsertSubscription
        { existing with enabled := existing.enabled.filter (fun p => p ≠ platform) } st

/-- `Database.updateLastSentAt`: read the record, set `lastSentAt`,
re-upsert; no-op when the subscriber is absent. -/
def updateLastSentAt (userId : String) (timestamp : Nat) (st : KvState) : KvState :=
  match getSubscriptionByUserId st userId with
  | none => st
  | some existing =>
      upsertSubscription { existing with lastSentAt := some timestamp } st

/-- Stable insertion of a message into a date-ascending list; models the
comparator `(a, b) => a.date.getTime() - b.date.getTime()`. -/
def insertByDate (m : Message) : List Message → List Message
  | [] => [m]
  | x :: xs => if x.date ≤ m.date then x :: insertByDate m xs else m :: x :: xs

/-- Stable sort by date ascending, as `Database.getMessagesByUserId`
sorts the listed messages. -/
def sortByDate : List Message → List Message
  | [] => []
  | x :: xs => insertByDate x (sortByDate xs)

/-- `Database.getMessagesByUserId`: enumerate the per-user message index
and sort by date ascending. -/
def getMessagesByUserId (st : KvState) (userId : String) : List Message :=
  sortByDate (st.messagesByUser userId)

/-! ## Slack webhook validation (`slackWebhookValidation` middleware)

The middleware's control flow is a short-circuiting state machine:
missing header / unconfigured secret → 401; unparseable timestamp →
401; stale timestamp → 401; non-buffer body → 500; signature length or
byte mismatch → 401; unparseable JSON → 400; otherwise the request is
handed to the next middleware.  The HMAC primitive
(`crypto.createHmac('sha256', secret).update(base).digest('hex')`) and
`JSON.parse` are Node library code, so they enter the model as
parameters `hmacHex` and `jsonOk`; likewise `jsNumber` stands for the
JavaScript `Number()` conversion restricted by the `Number.isFinite`
guard (`none` models a non-finite result). -/

/-- Outcome of the Slack validation middleware. -/
inductive SlackValidationResult where
  | unauthorized
  | serverConfigError
  | invalidJson
  | nextOk
deriving DecidableEq, Repr

/-- The inbound request as the middleware sees it: the two headers (a
missing header is `none`) and the raw body (`none` models a body that
is not a `Buffer`). -/
structure SlackRequest where
  timestampHeader : Option (List Char)
  signatureHeader : Option (List Char)
  rawBody : Option (List Char)

/-- JavaScript string falsiness: the header check `!timestamp` is true
for a missing header and for the empty string. -/
def jsFalsyStr : Option (List Char) → Bool
  | none => true
  | some s => s.isEmpty

/-- The XOR-accumulating loop of the middleware:
`diff |= sig.charCodeAt(i) ^ expected.charCodeAt(i)` over all indices
(the two strings have equal length when this runs). -/
def xorDiff (a b : List Char) : Nat :=
  (a.zip b).foldl (fun acc p => acc ||| (p.1.toNat ^^^ p.2.toNat)) 0

/-- `baseString = "v0:" + timestamp + ":" + body`. -/
def slackBaseString (timestamp body : List Char) : List Char :=
  ('v' :: '0' :: ':' :: []) ++ timestamp ++ (':' :: []) ++ body

/-- `expectedSignatureHeader = "v0=" + hex(HMAC-SHA256(secret, base))`. -/
def slackExpectedHeader (hmacHex : List Char → List Char → List Char)
    (signingSecret timestamp body : List Char) : List Char :=
  ('v' :: '0' :: '=' :: []) ++ hmacHex signingSecret (slackBaseString timestamp body)

/-- The signature stage of the middleware (everything after the
freshness check): recompute the expected header, compare lengths,
XOR-accumulate byte differences, then attempt `JSON.parse`. -/
def slackSignatureStage (hmacHex : List Char → List Char → List Char)
    (jsonOk : List Char → Bool) (signingSecret timestamp body sig : List Char) :
    SlackValidationResult :=
  let expectedSignatureHeader := slackExpectedHeader hmacHex signingSecret timestamp body
  if sig.length ≠ expectedSignatureHeader.length then .unauthorized
  else if xorDiff sig expectedSignatureHeader ≠ 0 then .unauthorized
  else if jsonOk body then .nextOk else .invalidJson

/-- `slackWebhookValidation(signingSecret)` applied to a request at
wall-clock second `now`. -/
def slackWebhookValidation (hmacHex : List Char → List Char → List Char)
    (jsonOk : List Char → Bool) (jsNumber : List Char → Option Int)
    (signingSecret : List Char) (now : Int) (req : SlackRequest) :
    SlackValidationResult :=
  if jsFalsyStr req.timestampHeader || jsFalsyStr req.signatureHeader ||
      signingSecret.isEmpty then .unauthorized
  else
    match req.timestampHeader, req.signatureHeader with
    | some ts, some sig =>
        match jsNumber ts with
        | none => .unauthorized
        | some t =>
            if (now - t).natAbs > 300 then .unauthorized
            else
              match req.rawBody with
              | none => .serverConfigError
              | some body => slackSignatureStage hmacHex jsonOk signingSecret ts body sig
    | _, _ => .unauthorized

/-! ## Telegram webhook validation (`TelegramService.validateWebhook`)

`src/services/telegram/keyboards.ts` holds two snapshots of
`TelegramService.validateWebhook`.  The hardened snapshot (lines
225-250) checks the production flag, throws when production has no
configured secret, and otherwise compares the
`x-telegram-bot-api-secret-token` header against the secret with a
timing-safe byte comparison (modelled as string equality, which is what
byte equality of the UTF-8 encodings amounts to).  The legacy snapshot
(lines 410-419) never consults the production flag: with a configured
secret it requires header equality, with no secret it accepts.  An
unset `TELEGRAM_WEBHOOK_SECRET` reaches both constructors as `""`. -/

/-- Outcome of the hardened `validateWebhook`: `configError` models the
thrown `Error('TELEGRAM_WEBHOOK_SECRET must be configured in
production')`. -/
inductive TelegramValidation where
  | accepted
  | rejected
  | configError
deriving DecidableEq, Repr

/-- The header the validator reads; `none` models an absent header. -/
structure TelegramRequest where
  secretTokenHeader : Option String

/-- The hardened `validateWebhook` (keyboards.ts lines 225-250). -/
def validateWebhookHardened (isProduction : Bool) (webhookSecret : String)
    (req : TelegramRequest) : TelegramValidation :=
  if isProduction && webhookSecret.isEmpty then .configError
  else if !webhookSecret.isEmpty then
    match req.secretTokenHeader with
    | none => .rejected
    | some tok =>
        if tok.isEmpty || tok.length ≠ webhookSecret.length then .rejected
        else if tok = webhookSecret then .accepted else .rejected
  else if isProduction then .rejected else .accepted

/-- The legacy `validateWebhook` (keyboards.ts lines 410-419): `true`
means the request is accepted.  It takes no production flag because the
source never reads one. -/
def validateWebhookLegacy (webhookSecret : String) (req : TelegramRequest) : Bool :=
  if !webhookSecret.isEmpty then
    match req.secretTokenHeader with
    | none => false
    | some tok => tok = webhookSecret
  else true

/-! ## Formatters (`src/services/formatting/...`)

`TelegramFormatter.splitMessage(text, maxLength)` repeatedly cuts a
chunk while the text is longer than `maxLength`: it looks for the last
`'\n'` at index ≤ `maxLength` (`text.lastIndexOf('\n', maxLength)`),
cuts there when that index is positive and at `maxLength` otherwise,
and then strips leading and trailing whitespace from the remainder
(`.trim()`) before continuing.  The loop is embedded with a fuel
argument equal to the text length; one pass always consumes at least
one character when `maxLength > 0`, so the fuel is never exhausted in
the configurations the source uses (`maxLength = 4096`). -/

/-- Index of the last occurrence of `c`, as a JavaScript-style `Int`
(`-1` when absent). -/
def lastIdx (c : Char) : List Char → Int
  | [] => -1
  | a :: as =>
      let r := lastIdx c as
      if 0 ≤ r then r + 1
      else if a = c then 0 else -1

/-- `text.lastIndexOf(c, fromIdx)`: last occurrence at index ≤
`fromIdx`, or `-1`. -/
def jsLastIndexOf (l : List Char) (c : Char) (fromIdx : Nat) : Int :=
  lastIdx c (l.take (fromIdx + 1))

/-- The characters `String.prototype.trim` strips (the ASCII whitespace
and line terminators, plus NBSP and the BOM; the model covers the code
points that can occur in the formatter's output and in the claims). -/
def isJsSpace (c : Char) : Bool :=
  c = ' ' || c = '\t' || c = '\n' || c = '\r' || c = '\x0b' ||
    c = '\x0c' || c = ' ' || c = '﻿'

/-- `text.trim()`: strip leading and trailing whitespace. -/
def jsTrim (l : List Char) : List Char :=
  ((l.dropWhile isJsSpace).reverse.dropWhile isJsSpace).reverse

/-- One fuelled unfolding of the `splitMessage` while-loop.  The fuel-0
fallback is unreachable whenever `maxLength > 0` and the fuel is at
least the text length (`splitMessageGo_fuel_irrel`). -/
def splitMessageGo (maxLength : Nat) : Nat → List Char → List (List Char)
  | 0, text => if text.length > 0 then [text] else []
  | fuel + 1, text =>
      if text.length > maxLength then
        let splitAt := jsLastIndexOf text '\n' maxLength
        let cut := if 0 < splitAt then splitAt.toNat else maxLength
        text.take cut :: splitMessageGo maxLength fuel (jsTrim (text.drop cut))
      else if text.length > 0 then [text] else []

/-- `TelegramFormatter.splitMessage(text, maxLength)`. -/
def splitMessage (text : List Char) (maxLength : Nat) : List (List Char) :=
  splitMessageGo maxLength text.length text

/-- The cut position of one `splitMessage` pass:
`splitAt > 0 ? splitAt : maxLength`. -/
def splitCut (text : List Char) (ml : Nat) : Nat :=
  if 0 < jsLastIndexOf text '\n' ml then (jsLastIndexOf text '\n' ml).toNat else ml

/-- `TelegramFormatter.escapeHtml`: replace `&`, `<`, `>` by their HTML
entities (each input character maps independently, which is what the
three sequential global `String.replace` calls amount to, the earlier
replacements producing only `&`, `a`-`z`, `;` characters that the later
patterns never match except for the `&` the first pass just wrote —
and `&` is replaced only by the first pass). -/
def escapeHtml (text : String) : String :=
  String.mk (text.data.foldr
    (fun c acc =>
      if c = '&' then '&' :: 'a' :: 'm' :: 'p' :: ';' :: acc
      else if c = '<' then '&' :: 'l' :: 't' :: ';' :: acc
      else if c = '>' then '&' :: 'g' :: 't' :: ';' :: acc
      else c :: acc) [])

/-- The per-section formatter inside `TelegramFormatter.buildContent`. -/
def telegramFormatTasks (tasks : List TaskItem) (label : String) : String :=
  if tasks.length = 0 then "<b>" ++ label ++ "</b>\n• N/A\n"
  else
    "<b>" ++ label ++ "</b>\n" ++
      String.intercalate "\n"
        (tasks.map (fun t => "• " ++ escapeHtml t.project ++ ": " ++ escapeHtml t.task)) ++
      "\n"

/-- `TelegramFormatter.buildContent`. -/
def telegramBuildContent : AgentResponse → String
  | .err _ => "<b>Error</b>\n\nFailed to generate report. Please try again."
  | .ok d =>
      telegramFormatTasks d.completed "1. Việc hoàn thành hôm trước?" ++
        telegramFormatTasks d.incomplete "2. Việc dự định làm nhưng chưa hoàn thành?" ++
        telegramFormatTasks d.planned "3. Việc dự định làm hôm nay?"

/-- `TelegramFormatter.format`: build the HTML content and split it into
chunks of at most 4096 characters. -/
def telegramFormat (r : AgentResponse) : List String :=
  (splitMessage (telegramBuildContent r).data 4096).map String.mk

/-- The per-section formatter inside `SlackFormatter.format`. -/
def slackFormatTasks (tasks : List TaskItem) : String :=
  if tasks.length = 0 then "  •  N/A"
  else
    String.intercalate "\n"
      (tasks.map (fun t =>
        let task := String.mk (jsTrim t.task.data)
        if task.length > 0 then "  •  " ++ t.project ++ ": " ++ task
        else "  •  " ++ t.project))

/-- `SlackFormatter.format`. -/
def slackFormat : AgentResponse → String
  | .err _ => "Error generating report"
  | .ok d =>
      "1. Việc hoàn thành hôm trước?\n" ++ slackFormatTasks d.completed ++
        "\n2. Việc dự định làm hôm trước nhưng không hoàn thành?\n" ++
        slackFormatTasks d.incomplete ++
        "\n3. Việc dự định làm hôm nay?\n" ++ slackFormatTasks d.planned

/-- Interleave chunks with separator strings: `interleave [c0, c1, c2]
[s0, s1] = c0 ++ s0 ++ c1 ++ s1 ++ c2`.  Used to state the
reconstruction property of `splitMessage`. -/
def interleave : List (List Char) → List (List Char) → List Char
  | [], _ => []
  | c :: cs, [] => c ++ interleave cs []
  | c :: cs, s :: ss => c ++ s ++ interleave cs ss

/-! ## The daily-summary fan-out (`processSubscription`, scheduler)

`processSubscription` is embedded as a pure function of the store
state, a `SchedEnv` describing the two external collaborators (the AI
agent and the platform send calls), and the wall-clock instant.  It
returns the `ProcessResult` the scheduler aggregates, the list of send
attempts it issued, and the store state after its writes.  A thrown
`agent.envoke` is `AgentCall.throws` (caught by the outer `try`, reason
`'error'`); a returned `{success: false}` carries its error string.  A
send attempt that throws is `some e : Option SendError`; the loop
catches it per platform, and for Telegram it abandons the remaining
chunks of that platform only. -/

/-- The `ProcessResult` record of the scheduler. -/
structure ProcessResult where
  success : Bool
  userId : String
  reason : Option String
deriving DecidableEq, Repr

/-- One attempted `bot.sendMessage` call, tagged with the subscriber it
was issued for. -/
structure SendRec where
  userId : String
  platform : Platform
  chatId : String
  content : String
deriving DecidableEq, Repr

/-- What a send attempt throws, when it throws.  `blocked403` is a
`GrammyError` with `error_code === 403`. -/
inductive SendError where
  | blocked403
  | other (msg : String)
deriving DecidableEq, Repr

/-- Outcome of `deps.agent.envoke`. -/
inductive AgentCall where
  | throws
  | returns (r : AgentResponse)
deriving DecidableEq, Repr

/-- The external collaborators of one scheduler run: the report
generator as a function of the entry content, and the send outcome per
(platform, chatId, content) — `none` is success, `some e` a throw. -/
structure SchedEnv where
  agentCall : String → AgentCall
  send : Platform → String → String → Option SendError

/-- `messages[messages.length - 1].content`; only evaluated behind the
`messages.length === 0` guard. -/
def latestContent (msgs : List Message) : String :=
  match msgs.getLast? with
  | some m => m.content
  | none => ""

/-- The Telegram chunk loop: each part is attempted in order and a
throw abandons the remaining parts (the per-platform `catch` swallows
it). -/
def attemptTelegramParts (env : SchedEnv) (uid chatId : String) :
    List String → List SendRec
  | [] => []
  | part :: rest =>
      ⟨uid, .telegram, chatId, part⟩ ::
        (match env.send .telegram chatId part with
         | none => attemptTelegramParts env uid chatId rest
         | some _ => [])

/-- The body of the per-platform loop: resolve the chat id (a missing or
empty id is falsy — log and skip), then format and send.  Slack sends
one formatted message; Telegram sends every chunk in order. -/
def dispatchPlatform (env : SchedEnv) (uid : String) (platforms : PlatformMap)
    (resp : AgentResponse) (p : Platform) : List SendRec :=
  match platforms.get p with
  | none => []
  | some chatId =>
      if chatId.isEmpty then []
      else
        match p with
        | .slack => [⟨uid, .slack, chatId, slackFormat resp⟩]
        | .telegram => attemptTelegramParts env uid chatId (telegramFormat resp)

/-- `processSubscription(sub, deps, ...)`: result, attempted sends, and
the store state after the run (the only write is `updateLastSentAt`,
reached exactly when messages exist and generation succeeded). -/
def processSubscription (env : SchedEnv) (now : Nat) (st : KvState)
    (sub : Subscription) : ProcessResult × List SendRec × KvState :=
  let messages := getMessagesByUserId st sub.userId
  if messages.length = 0 then (⟨false, sub.userId, some "no_messages"⟩, [], st)
  else
    match env.agentCall (latestContent messages) with
    | .throws => (⟨false, sub.userId, some "error"⟩, [], st)
    | .returns (.err e) => (⟨false, sub.userId, some e⟩, [], st)
    | .returns (.ok d) =>
        let sends :=
          (sub.enabled.map (dispatchPlatform env sub.userId sub.platforms (.ok d))).flatten
        (⟨true, sub.userId, none⟩, sends, updateLastSentAt sub.userId now st)

/-- The fuelled chunking loop of `batchProcess`; with positive batch
size and fuel ≥ the item count it equals a plain map
(`batchProcess_eq_map`), because the modelled per-item function is
pure and `Promise.all` preserves order. -/
def batchProcessGo (f : α → β) (batchSize : Nat) : Nat → List α → List β
  | _, [] => []
  | 0, l => l.map f
  | fuel + 1, l => (l.take batchSize).map f ++ batchProcessGo f batchSize fuel (l.drop batchSize)

/-- `batchProcess(items, batchSize, fn)`. -/
def batchProcess (batchSize : Nat) (items : List α) (f : α → β) : List β :=
  batchProcessGo f batchSize items.length items

/-- The aggregate a scheduler run reports: the per-subscriber results
and every send attempted during the run. -/
structure RunSummary where
  results : List ProcessResult
  sends : List SendRec
deriving DecidableEq, Repr

/-- One firing of the `daily-summary` cron job: list the active
subscribers (here: passed in), process them in batches, and aggregate.
Each subscriber is processed against the state the run started from;
the only writes are per-subscriber `lastSentAt` updates to distinct
records. -/
def runDailySummary (env : SchedEnv) (now : Nat) (st : KvState)
    (batchSize : Nat) (subs : List Subscription) : RunSummary :=
  let outs := batchProcess batchSize subs (processSubscription env now st)
  ⟨outs.map (fun o => o.1), (outs.map (fun o => o.2.1)).flatten⟩

/-- `successCount`: `results.filter((r) => r.success).length`. -/
def successCount (rs : List ProcessResult) : Nat :=
  (rs.filter (fun r => r.success)).length

/-- `noMessagesCount`:
`results.filter((r) => !r.success && r.reason === 'no_messages').length`. -/
def noMessagesCount (rs : List ProcessResult) : Nat :=
  (rs.filter (fun r => !r.success && r.reason = some "no_messages")).length

/-- `errorCount`:
`results.filter((r) => !r.success && r.reason !== 'no_messages').length`. -/
def errorCount (rs : List ProcessResult) : Nat :=
  (rs.filter (fun r => !r.success && r.reason ≠ some "no_messages")).length

/-! ## The Telegram bot error handler (`bot.catch`)

Errors raised while the bot processes an update reach `bot.catch`.
The handler disables the Telegram platform for the sender exactly when
the error is a `GrammyError` with `error_code === 403` and the context
carries `ctx.from.id`; every other error only gets logged. -/

/-- An error reaching `bot.catch`: a `GrammyError` with its
`error_code`, or anything else. -/
inductive BotError where
  | grammy (errorCode : Nat)
  | nonGrammy (msg : String)
deriving DecidableEq, Repr

/-- The `bot.catch` handler as a state transformer: `ctxFromId` is
`ctx.from?.id` (stringified). -/
def botCatch (e : BotError) (ctxFromId : Option String) (st : KvState) : KvState :=
  match e with
  | .grammy code =>
      if code = 403 then
        match ctxFromId with
        | some uid => disablePlatform uid .telegram st
        | none => st
      else st
  | .nonGrammy _ => st

/-! ## Concrete fixtures used by witnesses and counterexamples -/

/-- A subscriber with Telegram as the sole enabled platform. -/
def fixSub : Subscription :=
  ⟨"u", ⟨none, some "c"⟩, [Platform.telegram], none, 0, none⟩

/-- A store holding `fixSub` (primary, mirror and active index
consistent) and one stored work entry for the subscriber. -/
def fixStore : KvState :=
  ⟨fun x => if x = "u" then some fixSub else none,
   fun x => if x = "u" then some fixSub else none,
   fun x => if x = "u" then some fixSub else none,
   fun x => if x = "u" then [⟨"m1", "u", "did the work", 5⟩] else []⟩

/-- An environment whose report generator always succeeds with an empty
report and whose every send attempt throws a 403 `GrammyError`. -/
def fixEnv403 : SchedEnv :=
  ⟨fun _ => .returns (.ok ⟨[], [], []⟩), fun _ _ _ => some .blocked403⟩

/-- Fan-out scenario subscriber A: active on Slack, no stored entries. -/
def c6subA : Subscription := ⟨"a", ⟨some "ca", none⟩, [Platform.slack], none, 0, none⟩

/-- Fan-out scenario subscriber B: active on Slack, one stored entry,
generator succeeds. -/
def c6subB : Subscription := ⟨"b", ⟨some "cb", none⟩, [Platform.slack], none, 0, none⟩

/-- Fan-out scenario subscriber C: active on Slack, one stored entry,
generator fails. -/
def c6subC : Subscription := ⟨"c", ⟨some "cc", none⟩, [Platform.slack], none, 0, none⟩

/-- Store for the fan-out scenario: B and C each have one work entry,
A has none. -/
def c6store : KvState :=
  ⟨fun _ => none, fun _ => none, fun _ => none,
   fun x =>
     if x = "b" then [⟨"mb", "b", "workB", 1⟩]
     else if x = "c" then [⟨"mc", "c", "workC", 1⟩] else []⟩

/-- Environment whose generator succeeds on B's entry and fails on
everything else with the error string `"no_messages"` — the scheduler's
sentinel value for the no-entries outcome. -/
def c6envSentinel : SchedEnv :=
  ⟨fun content =>
     if content = "workB" then .returns (.ok ⟨[], [], []⟩)
     else .returns (.err "no_messages"),
   fun _ _ _ => none⟩

/-- Environment whose generator succeeds on B's entry and fails on C's
with an ordinary error string. -/
def c6envPlain : SchedEnv :=
  ⟨fun content =>
     if content = "workB" then .returns (.ok ⟨[], [], []⟩)
     else if content = "workC" then .returns (.err "boom") else .throws,
   fun _ _ _ => none⟩

/-- A 4100-character input: 4095 `'a'`s, a newline at index 4095 (at
the 4096 boundary), two spaces, then `"bb"`. -/
def ex5 : List Char :=
  List.replicate 4095 'a' ++ ('\n' :: ' ' :: ' ' :: 'b' :: 'b' :: [])

/-! ### Store lemmas -/

theorem applyTx_append (st : KvState) (a b : List KvOp) :
    applyTx st (a ++ b) = applyTx (applyTx st a) b := by
  simp [applyTx, List.foldl_append]

theorem kvUpdate_same (f : String → Option Subscription) (k : String)
    (v : Option Subscription) : kvUpdate f k v k = v := by
  simp [kvUpdate]

theorem kvUpdate_idem (f : String → Option Subscription) (k : String)
    (v : Option Subscription) :
    kvUpdate (kvUpdate f k v) k v = kvUpdate f k v := by
  funext x
  by_cases h : x = k <;> simp [kvUpdate, h]

/-- Unfolded form of `upsertSubscription`. -/
theorem upsertSubscription_def (s : Subscription) (st : KvState) :
    upsertSubscription s st =
      { st with
        subscriptions := kvUpdate st.subscriptions s.userId (some s)
        subscriptionsByUser := kvUpdate st.subscriptionsByUser s.userId (some s)
        activeSubscriptions :=
          kvUpdate st.activeSubscriptions s.userId
            (if s.enabled.length > 0 then some s else none) } := by
  by_cases h : s.enabled.length > 0 <;>
    simp [upsertSubscription, upsertTxOps, applyTx, applyOp, h]

/-! ### C1 / C8: the subscription upsert -/

/-- **C1.** `upsertSubscriber(s)` leaves the active index holding an
entry for `s.userId` exactly when `s.enabled` is non-empty (and that
entry is the record `s` itself), writes the primary record and the
by-user mirror to `s`, and does all of that in one atomic commit: the
states observable around the call are exactly the pre-state and the
final state, so no reachable intermediate state has the index
inconsistent with the primary record. -/
theorem upsertSubscription_active_index_consistent_atomic
    (s : Subscription) (st : KvState) :
    (upsertSubscription s st).subscriptions s.userId = some s ∧
    (upsertSubscription s st).subscriptionsByUser s.userId = some s ∧
    (upsertSubscription s st).activeSubscriptions s.userId =
      (if s.enabled.length > 0 then some s else none) ∧
    (((upsertSubscription s st).activeSubscriptions s.userId).isSome ↔ s.enabled ≠ []) ∧
    commitStates st (upsertCommitList s) = [st, upsertSubscription s st] := by
  refine ⟨?_, ?_, ?_, ?_, ?_⟩
  · simp [upsertSubscription_def, kvUpdate_same]
  · simp [upsertSubscription_def, kvUpdate_same]
  · simp [upsertSubscription_def, kvUpdate_same]
  · by_cases h : s.enabled = [] <;>
      simp [upsertSubscription_def, kvUpdate_same, h, List.length_pos]
  · simp [commitStates, upsertCommitList, List.scanl, upsertSubscription]

/-- **C8.** `upsertSubscriber` is idempotent: a second upsert of the
same value leaves the whole store state (primary records, by-user
mirror, active index, and message tables) unchanged. -/
theorem upsertSubscription_idempotent (s : Subscription) (st : KvState) :
    upsertSubscription s (upsertSubscription s st) = upsertSubscription s st := by
  simp only [upsertSubscription_def]
  ext uid <;> by_cases h : uid = s.userId <;> simp [kvUpdate, h]

/-! ### C4: fail-closed webhook validation in production -/

/-- **C4 counterexample.** The claim says `validateWebhook` never
returns acceptance when the system runs in production with no
configured secret.  The legacy snapshot of
`TelegramService.validateWebhook` (keyboards.ts lines 410-419) never
consults the production flag: with no configured secret it accepts
every request — also the one a production deployment receives with no
secret-token header at all. -/
theorem validateWebhookLegacy_fail_open_cex :
    validateWebhookLegacy "" ⟨none⟩ = true ∧
    validateWebhookLegacy "" ⟨some "forged"⟩ = true := by
  constructor <;> rfl

/-- **C4 amended.** The hardened snapshot (keyboards.ts lines 225-250)
fails closed: in production with no configured secret it throws before
looking at the request, so it never returns acceptance, and with no
secret outside production it accepts every request.  The legacy
snapshot (lines 410-419) accepts every request whenever no secret is
configured, regardless of the mode. -/
theorem validateWebhook_prod_fail_closed_amended (req : TelegramRequest) :
    validateWebhookHardened true "" req = .configError ∧
    validateWebhookHardened false "" req = .accepted ∧
    validateWebhookLegacy "" req = true := by
  refine ⟨rfl, ?_, ?_⟩ <;>
    simp [validateWebhookHardened, validateWebhookLegacy, show "".isEmpty = true from rfl]

/-! ### C2 / C3: the Slack webhook authenticator -/

theorem isEmpty_false_of_ne_nil {l : List Char} (h : l ≠ []) : l.isEmpty = false := by
  cases l with
  | nil => exact absurd rfl h
  | cons a as => rfl

theorem natOr_eq_zero_iff (x y : Nat) : x ||| y = 0 ↔ x = 0 ∧ y = 0 := by
  constructor
  · intro h
    have ht : ∀ i, x.testBit i = false ∧ y.testBit i = false := by
      intro i
      have hb := congrArg (fun n => Nat.testBit n i) h
      simpa [Nat.testBit_or] using hb
    exact ⟨Nat.eq_of_testBit_eq (fun i => by simp [(ht i).1]),
           Nat.eq_of_testBit_eq (fun i => by simp [(ht i).2])⟩
  · rintro ⟨rfl, rfl⟩; rfl

theorem foldl_or_eq_zero {α : Type} (g : α → Nat) (l : List α) (a : Nat) :
    l.foldl (fun acc p => acc ||| g p) a = 0 ↔ a = 0 ∧ ∀ p ∈ l, g p = 0 := by
  induction l generalizing a with
  | nil => simp
  | cons x xs ih =>
      simp only [List.foldl_cons, ih, natOr_eq_zero_iff, List.mem_cons]
      constructor
      · rintro ⟨⟨ha, hx⟩, h⟩
        exact ⟨ha, fun p hp => hp.elim (fun e => e ▸ hx) (h p)⟩
      · rintro ⟨ha, h⟩
        exact ⟨⟨ha, h x (Or.inl rfl)⟩, fun p hp => h p (Or.inr hp)⟩

theorem char_toNat_inj {a b : Char} (h : a.toNat = b.toNat) : a = b := by
  have hv : a.val = b.val := UInt32.toNat.inj h
  exact Char.ext hv

theorem xorDiff_eq_zero_iff_forall (a b : List Char) :
    xorDiff a b = 0 ↔ ∀ p ∈ a.zip b, p.1.toNat ^^^ p.2.toNat = 0 := by
  unfold xorDiff
  rw [foldl_or_eq_zero]
  simp

theorem zip_xor_forall_iff_eq (a : List Char) : ∀ (b : List Char), a.length = b.length →
    ((∀ p ∈ a.zip b, p.1.toNat ^^^ p.2.toNat = 0) ↔ a = b) := by
  induction a with
  | nil =>
      intro b hb
      cases b with
      | nil => simp
      | cons y ys => simp at hb
  | cons x xs ih =>
      intro b hb
      cases b with
      | nil => simp at hb
      | cons y ys =>
          have hlen : xs.length = ys.length := by simpa using hb
          simp only [List.zip_cons_cons, List.mem_cons]
          constructor
          · intro h
            have hx : x = y := char_toNat_inj (Nat.xor_eq_zero.mp (h (x, y) (Or.inl rfl)))
            have hxs : xs = ys := (ih ys hlen).mp (fun p hp => h p (Or.inr hp))
            rw [hx, hxs]
          · intro h p hp
            injection h with h1 h2
            subst h1
            subst h2
            rcases hp with rfl | hp2
            · exact Nat.xor_self _
            · exact (ih xs rfl).mpr rfl p hp2

/-- With equal lengths, a vanishing XOR accumulator is exactly string
equality: the byte loop is a correct equality test. -/
theorem xorDiff_eq_zero_iff (a b : List Char) (hlen : a.length = b.length) :
    xorDiff a b = 0 ↔ a = b :=
  (xorDiff_eq_zero_iff_forall a b).trans (zip_xor_forall_iff_eq a b hlen)

/-- The signature stage is not rejected exactly when the received
header equals the recomputed expected header. -/
theorem slackSignatureStage_ne_unauthorized_iff
    (hmacHex : List Char → List Char → List Char) (jsonOk : List Char → Bool)
    (signingSecret ts body sig : List Char) :
    slackSignatureStage hmacHex jsonOk signingSecret ts body sig ≠ .unauthorized ↔
      sig = slackExpectedHeader hmacHex signingSecret ts body := by
  unfold slackSignatureStage
  set expected := slackExpectedHeader hmacHex signingSecret ts body with hexp
  by_cases hlen : sig.length = expected.length
  · simp only [hlen, ne_eq, not_true_eq_false, if_false, ite_not]
    by_cases hxor : xorDiff sig expected = 0
    · have hsig : sig = expected := (xorDiff_eq_zero_iff sig expected hlen).mp hxor
      have hx2 : xorDiff expected expected = 0 := hsig ▸ hxor
      by_cases hj : jsonOk body = true <;> simp [hx2, hj, hsig]
    · have hsig : sig ≠ expected := fun he =>
        hxor ((xorDiff_eq_zero_iff sig expected hlen).mpr he)
      simp [hxor, hsig]
  · have hsig : sig ≠ expected := fun he => hlen (he ▸ rfl)
    simp [hlen, hsig]

/-- **C2.** With both headers present (and non-empty), a configured
secret and a parseable timestamp `t`, the middleware rejects whenever
`|now − t| > 300` — before the signature is even recomputed, so also
for a correct signature — and at exactly `|now − t| = 300` it is not
rejected by the timestamp check: the outcome is whatever the signature
stage decides. -/
theorem slackWebhookValidation_replay_window
    (hmacHex : List Char → List Char → List Char) (jsonOk : List Char → Bool)
    (jsNumber : List Char → Option Int) (signingSecret : List Char) (now : Int)
    (req : SlackRequest) (ts sig body : List Char) (t : Int)
    (hts : req.timestampHeader = some ts) (hsig : req.signatureHeader = some sig)
    (hbody : req.rawBody = some body)
    (hts0 : ts ≠ []) (hsig0 : sig ≠ []) (hsec : signingSecret ≠ [])
    (hparse : jsNumber ts = some t) :
    ((now - t).natAbs > 300 →
      slackWebhookValidation hmacHex jsonOk jsNumber signingSecret now req =
        .unauthorized) ∧
    ((now - t).natAbs = 300 →
      slackWebhookValidation hmacHex jsonOk jsNumber signingSecret now req =
        slackSignatureStage hmacHex jsonOk signingSecret ts body sig) := by
  obtain ⟨tsh, sigh, bodyh⟩ := req
  simp only at hts hsig hbody
  subst hts
  subst hsig
  subst hbody
  constructor
  · intro habs
    simp [slackWebhookValidation, jsFalsyStr, isEmpty_false_of_ne_nil hts0,
      isEmpty_false_of_ne_nil hsig0, isEmpty_false_of_ne_nil hsec, hparse, habs]
  · intro habs
    have hnot : ¬((now - t).natAbs > 300) := by omega
    simp [slackWebhookValidation, jsFalsyStr, isEmpty_false_of_ne_nil hts0,
      isEmpty_false_of_ne_nil hsig0, isEmpty_false_of_ne_nil hsec, hparse, hnot]

/-- **C2 witness.** A request 301 seconds old is rejected; one exactly
300 seconds old passes the timestamp stage and is handed to the
signature stage. -/
theorem slackWebhookValidation_replay_window_witness :
    slackWebhookValidation (fun _ _ => []) (fun _ => true) (fun _ => some 0)
        ('s' :: []) 301 ⟨some ('0' :: []), some ('x' :: []), some []⟩ = .unauthorized ∧
    slackWebhookValidation (fun _ _ => []) (fun _ => true) (fun _ => some 0)
        ('s' :: []) 300 ⟨some ('0' :: []), some ('x' :: []), some []⟩ =
      slackSignatureStage (fun _ _ => []) (fun _ => true) ('s' :: []) ('0' :: [])
        [] ('x' :: []) := by
  constructor
  · exact (slackWebhookValidation_replay_window (fun _ _ => []) (fun _ => true)
      (fun _ => some 0) ('s' :: []) 301 ⟨some ('0' :: []), some ('x' :: []), some []⟩
      ('0' :: []) ('x' :: []) [] 0 rfl rfl rfl (by decide) (by decide) (by decide)
      rfl).1 (by decide)
  · exact (slackWebhookValidation_replay_window (fun _ _ => []) (fun _ => true)
      (fun _ => some 0) ('s' :: []) 300 ⟨some ('0' :: []), some ('x' :: []), some []⟩
      ('0' :: []) ('x' :: []) [] 0 rfl rfl rfl (by decide) (by decide) (by decide)
      rfl).2 (by decide)

/-- **C3.** The signature stage passes (is not rejected) exactly when
the received header equals `"v0=" + hex(HMAC-SHA256(secret, "v0:" +
timestamp + ":" + rawBody))`, the comparison being the length-equal
check followed by the XOR accumulation; consequently flipping any
single bit of any character of a correct signature makes the stage
reject. -/
theorem slackSignatureStage_pass_iff
    (hmacHex : List Char → List Char → List Char) (jsonOk : List Char → Bool)
    (signingSecret ts body sig : List Char) :
    (slackSignatureStage hmacHex jsonOk signingSecret ts body sig ≠ .unauthorized ↔
      sig = slackExpectedHeader hmacHex signingSecret ts body) ∧
    (∀ (i k : Nat) (c : Char)
        (hi : i < (slackExpectedHeader hmacHex signingSecret ts body).length),
        c.toNat ^^^
            ((slackExpectedHeader hmacHex signingSecret ts body).get ⟨i, hi⟩).toNat =
          2 ^ k →
        slackSignatureStage hmacHex jsonOk signingSecret ts body
          ((slackExpectedHeader hmacHex signingSecret ts body).set i c) =
          .unauthorized) := by
  refine ⟨slackSignatureStage_ne_unauthorized_iff hmacHex jsonOk signingSecret ts body sig,
    ?_⟩
  intro i k c hi hx
  set expected := slackExpectedHeader hmacHex signingSecret ts body with hexp
  have hc : c ≠ expected.get ⟨i, hi⟩ := by
    intro he
    rw [he, Nat.xor_self] at hx
    have h2 : (0 : Nat) < 2 ^ k := Nat.pos_pow_of_pos k (by norm_num)
    omega
  have hne : expected.set i c ≠ expected := by
    intro he
    have h1 : (expected.set i c)[i]? = some c := List.getElem?_set_eq_of_lt c hi
    rw [he] at h1
    have h2 : expected[i]? = some (expected.get ⟨i, hi⟩) := by
      rw [List.getElem?_eq_getElem hi]
      simp [List.get_eq_getElem]
    exact hc (Option.some.inj (h1.symm.trans h2))
  by_contra hres
  have := (slackSignatureStage_ne_unauthorized_iff hmacHex jsonOk signingSecret ts body
    (expected.set i c)).mp hres
  exact hne this

/-- **C3 witness.** With a fixture HMAC returning `"ab"` the expected
header is `"v0=ab"`; flipping the lowest bit of its last character
(`'b'` to `'c'`) makes the stage reject, and the stage applied to the
exact expected header passes. -/
theorem slackSignatureStage_pass_iff_witness :
    slackSignatureStage (fun _ _ => 'a' :: 'b' :: []) (fun _ => true)
        ('s' :: []) ('0' :: []) []
        ((slackExpectedHeader (fun _ _ => 'a' :: 'b' :: []) ('s' :: []) ('0' :: [])
          []).set 4 'c') = .unauthorized ∧
    slackSignatureStage (fun _ _ => 'a' :: 'b' :: []) (fun _ => true)
        ('s' :: []) ('0' :: []) []
        (slackExpectedHeader (fun _ _ => 'a' :: 'b' :: []) ('s' :: []) ('0' :: []) []) ≠
      .unauthorized := by
  constructor
  · exact (slackSignatureStage_pass_iff (fun _ _ => 'a' :: 'b' :: []) (fun _ => true)
      ('s' :: []) ('0' :: []) []
      ((slackExpectedHeader (fun _ _ => 'a' :: 'b' :: []) ('s' :: []) ('0' :: [])
        []).set 4 'c')).2 4 0 'c' (by decide) (by decide)
  · exact (slackSignatureStage_pass_iff (fun _ _ => 'a' :: 'b' :: []) (fun _ => true)
      ('s' :: []) ('0' :: []) []
      (slackExpectedHeader (fun _ _ => 'a' :: 'b' :: []) ('s' :: []) ('0' :: []) [])).1.mpr
      rfl

/-! ### C7: 403 handling -/

set_option maxRecDepth 100000 in
/-- **C7 counterexample.** In the fan-out path a Telegram send attempt
that throws a 403 `GrammyError` does not remove the platform: the
per-platform `catch` in `processSubscription` only logs.  After the run
the subscriber still has `telegram` enabled, is still in the active
index, and the 403-failing send was really attempted. -/
theorem processSubscription_send403_no_disable_cex :
    (processSubscription fixEnv403 9 fixStore fixSub).2.2.subscriptions "u" =
      some ⟨"u", ⟨none, some "c"⟩, [Platform.telegram], none, 0, some 9⟩ ∧
    (processSubscription fixEnv403 9 fixStore fixSub).2.2.activeSubscriptions "u" =
      some ⟨"u", ⟨none, some "c"⟩, [Platform.telegram], none, 0, some 9⟩ ∧
    (processSubscription fixEnv403 9 fixStore fixSub).2.1.length = 1 ∧
    (∀ s ∈ (processSubscription fixEnv403 9 fixStore fixSub).2.1,
      fixEnv403.send s.platform s.chatId s.content = some .blocked403) := by
  refine ⟨by decide, by decide, by decide, by decide⟩

/-- **C7 amended.** A 403 `GrammyError` reaching the Telegram bot's
update-error handler (`bot.catch`) with a sender id triggers
`disablePlatform`, which removes `telegram` from the subscriber's
`enabled` set and leaves the subscriber in the active index exactly
when another platform remains enabled; no other error reaching the
handler, and no error without a sender id, mutates any state; and the
fan-out send path never changes a subscriber's `enabled` set no matter
how sends fail (including 403s there): for a well-keyed store its only
write is the `lastSentAt` update, so any record it leaves at `uid`
either keeps `sub0.enabled` or is the untouched original. -/
theorem telegram_error_handler_403_disable_amended
    (uid : String) (st : KvState) (sub0 : Subscription) (code : Nat) (msg : String)
    (hsub : st.subscriptions uid = some sub0)
    (hwk : ∀ u rec, st.subscriptions u = some rec → rec.userId = u) :
    (botCatch (.grammy 403) (some uid) st).subscriptions uid =
      some { sub0 with enabled := sub0.enabled.filter (fun p => p ≠ Platform.telegram) } ∧
    (((botCatch (.grammy 403) (some uid) st).activeSubscriptions uid).isSome ↔
      sub0.enabled.filter (fun p => p ≠ Platform.telegram) ≠ []) ∧
    (code ≠ 403 → botCatch (.grammy code) (some uid) st = st) ∧
    botCatch (.nonGrammy msg) (some uid) st = st ∧
    botCatch (.grammy 403) none st = st ∧
    (∀ (env : SchedEnv) (now : Nat) (sub r : Subscription),
      (processSubscription env now st sub).2.2.subscriptions uid = some r →
      r.enabled = sub0.enabled ∨ st.subscriptions uid = some r) := by
  have hkey : sub0.userId = uid := hwk uid sub0 hsub
  have hdis : botCatch (.grammy 403) (some uid) st =
      upsertSubscription
        { sub0 with enabled := sub0.enabled.filter (fun p => p ≠ Platform.telegram) } st := by
    simp [botCatch, disablePlatform, getSubscriptionByUserId, hsub]
  refine ⟨?_, ?_, ?_, ?_, ?_, ?_⟩
  · rw [hdis, upsertSubscription_def]
    simp [hkey, kvUpdate_same]
  · rw [hdis, upsertSubscription_def]
    simp only [hkey, kvUpdate_same]
    by_cases h : sub0.enabled.filter (fun p => p ≠ Platform.telegram) = [] <;>
      simp [kvUpdate_same, hkey, h, List.length_pos]
  · intro hcode
    simp [botCatch, hcode]
  · rfl
  · rfl
  · intro env now sub r hr
    have hstate : (processSubscription env now st sub).2.2 = st ∨
        (processSubscription env now st sub).2.2 = updateLastSentAt sub.userId now st := by
      unfold processSubscription
      by_cases hm : (getMessagesByUserId st sub.userId).length = 0
      · left
        simp [hm]
      · cases hag : env.agentCall (latestContent (getMessagesByUserId st sub.userId)) with
        | throws => left; simp [hm, hag]
        | returns resp =>
            cases resp with
            | err e => left; simp [hm, hag]
            | ok d => right; simp [hm, hag]
    cases hstate with
    | inl hid =>
        right
        rw [hid] at hr
        exact hr
    | inr hup =>
        rw [hup] at hr
        unfold updateLastSentAt at hr
        cases hget : getSubscriptionByUserId st sub.userId with
        | none =>
            right
            rw [hget] at hr
            exact hr
        | some existing =>
            rw [hget] at hr
            simp only [] at hr
            rw [upsertSubscription_def] at hr
            simp only [kvUpdate] at hr
            by_cases heq : uid = existing.userId
            · left
              rw [if_pos heq] at hr
              have hkeyex : existing.userId = sub.userId := hwk sub.userId existing hget
              have huid : uid = sub.userId := heq.trans hkeyex
              have hex : existing = sub0 := by
                have h2 : st.subscriptions uid = some existing := huid ▸ hget
                rw [hsub] at h2
                exact (Option.some.inj h2).symm
              cases Option.some.inj hr
              simp [hex]
            · right
              rw [if_neg heq] at hr
              exact hr

/-- **C7 amended witness.** For the sole-platform subscriber, a 403 in
the bot's error handler empties the `enabled` set and drops the active
index entry. -/
theorem telegram_error_handler_403_disable_amended_witness :
    (botCatch (.grammy 403) (some "u") fixStore).subscriptions "u" =
      some ⟨"u", ⟨none, some "c"⟩, [], none, 0, none⟩ ∧
    ((botCatch (.grammy 403) (some "u") fixStore).activeSubscriptions "u").isSome =
      false := by
  have hwk : ∀ u rec, fixStore.subscriptions u = some rec → rec.userId = u := by
    intro u rec h
    by_cases hu : u = "u"
    · subst hu
      simp [fixStore] at h
      rw [← h]
      rfl
    · simp [fixStore, hu] at h
  have h := telegram_error_handler_403_disable_amended "u" fixStore fixSub 400 "x"
    (by rfl) hwk
  constructor
  · rw [h.1]
    rfl
  · have h2 := h.2.1
    simp only [show fixSub.enabled.filter (fun p => p ≠ Platform.telegram) = []
      from rfl] at h2
    simpa using h2

/-! ### C9: unconditional lastSentAt update -/

/-- **C9.** When a scheduled subscriber has at least one stored entry
and report generation succeeds, `processSubscription` reports success
and its final store state is exactly `updateLastSentAt` — for every
send environment, so also when every platform delivery failed or was
skipped; the stored record gets `lastSentAt = now`. -/
theorem processSubscription_updates_lastSentAt_unconditionally
    (env : SchedEnv) (now : Nat) (st : KvState) (sub sub0 : Subscription)
    (d : DailyWorkReport)
    (hmsg : getMessagesByUserId st sub.userId ≠ [])
    (hagent : env.agentCall (latestContent (getMessagesByUserId st sub.userId)) =
      .returns (.ok d))
    (hsub : st.subscriptions sub.userId = some sub0)
    (hkey : sub0.userId = sub.userId) :
    (processSubscription env now st sub).1.success = true ∧
    (processSubscription env now st sub).2.2 = updateLastSentAt sub.userId now st ∧
    (processSubscription env now st sub).2.2.subscriptions sub.userId =
      some { sub0 with lastSentAt := some now } := by
  have hm : ¬(getMessagesByUserId st sub.userId).length = 0 := by
    simpa [List.length_eq_zero] using hmsg
  refine ⟨?_, ?_, ?_⟩
  · simp [processSubscription, hm, hagent]
  · simp [processSubscription, hm, hagent]
  · simp only [processSubscription, hm, if_neg hm, hagent]
    unfold updateLastSentAt
    rw [show getSubscriptionByUserId st sub.userId = some sub0 from hsub]
    simp only [upsertSubscription_def]
    simp [kvUpdate, hkey]

/-- **C9 witness.** With one stored entry, a succeeding generator and
an environment in which every send attempt throws, the run still
reports success and stamps `lastSentAt`. -/
theorem processSubscription_updates_lastSentAt_unconditionally_witness :
    (processSubscription fixEnv403 9 fixStore fixSub).1.success = true ∧
    (processSubscription fixEnv403 9 fixStore fixSub).2.2.subscriptions "u" =
      some ⟨"u", ⟨none, some "c"⟩, [Platform.telegram], none, 0, some 9⟩ := by
  have h := processSubscription_updates_lastSentAt_unconditionally fixEnv403 9 fixStore
    fixSub fixSub ⟨[], [], []⟩ (by decide) rfl rfl rfl
  refine ⟨h.1, ?_⟩
  have h3 := h.2.2
  rw [show fixSub.userId = "u" from rfl] at h3
  rw [h3]
  rfl

/-! ### C5 / C10: splitMessage -/

theorem jsTrim_length_le (l : List Char) : (jsTrim l).length ≤ l.length := by
  unfold jsTrim
  calc ((l.dropWhile isJsSpace).reverse.dropWhile isJsSpace).reverse.length
      = ((l.dropWhile isJsSpace).reverse.dropWhile isJsSpace).length :=
        List.length_reverse _
    _ ≤ (l.dropWhile isJsSpace).reverse.length := (List.dropWhile_sublist _).length_le
    _ = (l.dropWhile isJsSpace).length := List.length_reverse _
    _ ≤ l.length := (List.dropWhile_sublist _).length_le

theorem lastIdx_lt_length (c : Char) : ∀ l : List Char, lastIdx c l < (l.length : Int) := by
  intro l
  induction l with
  | nil => simp [lastIdx]
  | cons a as ih =>
      simp only [lastIdx, List.length_cons]
      by_cases h : 0 ≤ lastIdx c as
      · rw [if_pos h]
        push_cast
        omega
      · rw [if_neg h]
        by_cases h2 : a = c <;> simp only [h2, if_pos, if_neg, if_true, if_false] <;>
          push_cast <;> omega

theorem le_lastIdx_of_get (c : Char) :
    ∀ (l : List Char) (j : Nat), l[j]? = some c → (j : Int) ≤ lastIdx c l := by
  intro l
  induction l with
  | nil =>
      intro j h
      simp at h
  | cons a as ih =>
      intro j h
      cases j with
      | zero =>
          have ha : a = c := by simpa using h
          simp only [lastIdx]
          by_cases hr : 0 ≤ lastIdx c as
          · rw [if_pos hr]
            omega
          · rw [if_neg hr, if_pos ha]
            omega
      | succ j =>
          have hj := ih j (by simpa using h)
          simp only [lastIdx]
          have h0 : (0 : Int) ≤ lastIdx c as := le_trans (by positivity) hj
          rw [if_pos h0]
          push_cast
          omega

theorem get_lastIdx (c : Char) :
    ∀ (l : List Char), 0 ≤ lastIdx c l → l[(lastIdx c l).toNat]? = some c := by
  intro l
  induction l with
  | nil =>
      intro h
      simp [lastIdx] at h
  | cons a as ih =>
      intro h
      simp only [lastIdx] at h ⊢
      by_cases h2 : 0 ≤ lastIdx c as
      · rw [if_pos h2] at h ⊢
        have hrec := ih h2
        have htn : (lastIdx c as + 1).toNat = (lastIdx c as).toNat + 1 := by omega
        rw [htn]
        simpa using hrec
      · rw [if_neg h2] at h ⊢
        by_cases h3 : a = c
        · rw [if_pos h3] at h ⊢
          simp [h3]
        · rw [if_neg h3] at h
          omega

theorem jsLastIndexOf_lt (l : List Char) (c : Char) (fromIdx : Nat) :
    jsLastIndexOf l c fromIdx < (fromIdx : Int) + 1 ∧
    jsLastIndexOf l c fromIdx < (l.length : Int) := by
  have h := lastIdx_lt_length c (l.take (fromIdx + 1))
  rw [List.length_take] at h
  have hk : jsLastIndexOf l c fromIdx = lastIdx c (l.take (fromIdx + 1)) := rfl
  rw [hk]
  constructor <;> omega

theorem get_jsLastIndexOf (l : List Char) (c : Char) (fromIdx : Nat)
    (h : 0 ≤ jsLastIndexOf l c fromIdx) :
    l[(jsLastIndexOf l c fromIdx).toNat]? = some c := by
  have hget := get_lastIdx c (l.take (fromIdx + 1)) h
  have hlt := (jsLastIndexOf_lt l c fromIdx).1
  unfold jsLastIndexOf at hget hlt h ⊢
  rwa [List.getElem?_take_of_lt (by omega)] at hget

theorem le_jsLastIndexOf_of_get (l : List Char) (c : Char) (fromIdx j : Nat)
    (hj : j ≤ fromIdx) (h : l[j]? = some c) :
    (j : Int) ≤ jsLastIndexOf l c fromIdx := by
  unfold jsLastIndexOf
  refine le_lastIdx_of_get c _ j ?_
  rwa [List.getElem?_take_of_lt (by omega)]

/-- Bounds on the cut position of one `splitMessage` pass. -/
theorem splitCut_bounds (text : List Char) (ml : Nat) (hm : 0 < ml)
    (hlen : ml < text.length) :
    0 < (if 0 < jsLastIndexOf text '\n' ml
         then (jsLastIndexOf text '\n' ml).toNat else ml) ∧
    (if 0 < jsLastIndexOf text '\n' ml
     then (jsLastIndexOf text '\n' ml).toNat else ml) ≤ ml ∧
    (if 0 < jsLastIndexOf text '\n' ml
     then (jsLastIndexOf text '\n' ml).toNat else ml) < text.length := by
  have hlt := jsLastIndexOf_lt text '\n' ml
  by_cases h : 0 < jsLastIndexOf text '\n' ml
  · rw [if_pos h]
    refine ⟨by omega, by omega, by omega⟩
  · rw [if_neg h]
    exact ⟨hm, le_refl ml, hlen⟩

theorem splitMessageGo_fuel (ml : Nat) (hm : 0 < ml) :
    ∀ (n : Nat) (text : List Char) (f1 f2 : Nat), text.length ≤ n →
      text.length ≤ f1 → text.length ≤ f2 →
      splitMessageGo ml f1 text = splitMessageGo ml f2 text := by
  intro n
  induction n with
  | zero =>
      intro text f1 f2 hn _ _
      have htext : text = [] := by
        have := Nat.le_zero.mp hn
        simpa [List.length_eq_zero] using this
      subst htext
      cases f1 <;> cases f2 <;> simp [splitMessageGo]
  | succ n ih =>
      intro text f1 f2 hn h1 h2
      match f1, f2 with
      | 0, 0 => rfl
      | 0, f2 + 1 =>
          have htext : text = [] := by
            simpa [List.length_eq_zero] using Nat.le_zero.mp h1
          subst htext
          simp [splitMessageGo]
      | f1 + 1, 0 =>
          have htext : text = [] := by
            simpa [List.length_eq_zero] using Nat.le_zero.mp h2
          subst htext
          simp [splitMessageGo]
      | f1 + 1, f2 + 1 =>
          simp only [splitMessageGo]
          by_cases hlen : text.length > ml
          · have hb := splitCut_bounds text ml hm hlen
            have hnew : (jsTrim (text.drop
                (if 0 < jsLastIndexOf text '\n' ml
                 then (jsLastIndexOf text '\n' ml).toNat else ml))).length ≤
                text.length - 1 := by
              calc (jsTrim _).length ≤ (text.drop _).length := jsTrim_length_le _
                _ = text.length - _ := List.length_drop _ _
                _ ≤ text.length - 1 := by omega
            rw [if_pos hlen, if_pos hlen]
            congr 1
            exact ih _ f1 f2 (by omega) (by omega) (by omega)
          · rw [if_neg hlen, if_neg hlen]

/-- The unfolding equation of `splitMessage` for a positive maximum
length: one loop pass cuts at the last `'\n'` at index ≤ `maxLength`
when that index is positive and at `maxLength` otherwise, trims the
remainder, and recurses. -/
theorem splitMessage_eq (ml : Nat) (hm : 0 < ml) (text : List Char) :
    splitMessage text ml =
      if ml < text.length then
        text.take (if 0 < jsLastIndexOf text '\n' ml
            then (jsLastIndexOf text '\n' ml).toNat else ml) ::
          splitMessage (jsTrim (text.drop (if 0 < jsLastIndexOf text '\n' ml
            then (jsLastIndexOf text '\n' ml).toNat else ml))) ml
      else if 0 < text.length then [text] else [] := by
  have hfuel : splitMessage text ml = splitMessageGo ml (text.length + 1) text :=
    splitMessageGo_fuel ml hm text.length text text.length (text.length + 1)
      le_rfl le_rfl (Nat.le_succ _)
  rw [hfuel]
  simp only [splitMessageGo]
  by_cases hlen : text.length > ml
  · rw [if_pos hlen, if_pos (show ml < text.length from hlen)]
    congr 1
    have hb := splitCut_bounds text ml hm hlen
    have hnew : (jsTrim (text.drop
        (if 0 < jsLastIndexOf text '\n' ml
         then (jsLastIndexOf text '\n' ml).toNat else ml))).length ≤ text.length := by
      calc (jsTrim _).length ≤ (text.drop _).length := jsTrim_length_le _
        _ = text.length - _ := List.length_drop _ _
        _ ≤ text.length := Nat.sub_le _ _
    exact splitMessageGo_fuel ml hm text.length _ text.length _ hnew hnew le_rfl
  · rw [if_neg hlen, if_neg (show ¬ ml < text.length from hlen)]

/-- Every chunk produced by `splitMessage` is non-empty and at most
`maxLength` characters long (for positive `maxLength`). -/
theorem splitMessage_chunks (ml : Nat) (hm : 0 < ml) :
    ∀ (n : Nat) (text : List Char), text.length ≤ n →
      ∀ chunk ∈ splitMessage text ml, chunk ≠ [] ∧ chunk.length ≤ ml := by
  intro n
  induction n with
  | zero =>
      intro text hn chunk hc
      have htext : text = [] := by
        simpa [List.length_eq_zero] using Nat.le_zero.mp hn
      subst htext
      rw [splitMessage_eq ml hm] at hc
      simp at hc
  | succ n ih =>
      intro text hn chunk hc
      rw [splitMessage_eq ml hm] at hc
      by_cases hlen : ml < text.length
      · rw [if_pos hlen] at hc
        have hb := splitCut_bounds text ml hm hlen
        set cut := (if 0 < jsLastIndexOf text '\n' ml
          then (jsLastIndexOf text '\n' ml).toNat else ml) with hcut
        rcases List.mem_cons.mp hc with hhead | htail
        · subst hhead
          have hlt : (text.take cut).length = min cut text.length :=
            List.length_take cut text
          constructor
          · intro hnil
            rw [hnil] at hlt
            simp at hlt
            omega
          · rw [List.length_take]
            omega
        · have hnew : (jsTrim (text.drop cut)).length ≤ n := by
            have h1 : (jsTrim (text.drop cut)).length ≤ (text.drop cut).length :=
              jsTrim_length_le _
            rw [List.length_drop] at h1
            omega
          exact ih _ hnew chunk htail
      · rw [if_neg hlen] at hc
        by_cases hpos : 0 < text.length
        · rw [if_pos hpos] at hc
          have : chunk = text := by simpa using hc
          subst this
          exact ⟨by simpa [← List.length_pos] using hpos, by omega⟩
        · rw [if_neg hpos] at hc
          simp at hc

/-- A non-empty input always yields at least one chunk. -/
theorem splitMessage_ne_nil (ml : Nat) (hm : 0 < ml) (text : List Char)
    (h : text ≠ []) : splitMessage text ml ≠ [] := by
  rw [splitMessage_eq ml hm]
  by_cases hlen : ml < text.length
  · simp [hlen]
  · have hpos : 0 < text.length := List.length_pos.mpr h
    simp [hlen, hpos]

/-- `trim` decomposition: the input is the whitespace prefix, the
trimmed core, and the whitespace suffix. -/
theorem jsTrim_decomp (l : List Char) :
    ∃ pre post, pre.all isJsSpace = true ∧ post.all isJsSpace = true ∧
      l = pre ++ jsTrim l ++ post := by
  refine ⟨l.takeWhile isJsSpace,
    ((l.dropWhile isJsSpace).reverse.takeWhile isJsSpace).reverse, ?_, ?_, ?_⟩
  · rw [List.all_eq_true]
    intro x hx
    exact List.mem_takeWhile_imp hx
  · rw [List.all_eq_true]
    intro x hx
    exact List.mem_takeWhile_imp (List.mem_reverse.mp hx)
  · conv_lhs => rw [← List.takeWhile_append_dropWhile (p := isJsSpace) (l := l)]
    rw [List.append_assoc]
    congr 1
    unfold jsTrim
    calc l.dropWhile isJsSpace
        = (l.dropWhile isJsSpace).reverse.reverse := (List.reverse_reverse _).symm
      _ = ((l.dropWhile isJsSpace).reverse.takeWhile isJsSpace ++
            (l.dropWhile isJsSpace).reverse.dropWhile isJsSpace).reverse := by
          rw [List.takeWhile_append_dropWhile]
      _ = ((l.dropWhile isJsSpace).reverse.dropWhile isJsSpace).reverse ++
            ((l.dropWhile isJsSpace).reverse.takeWhile isJsSpace).reverse := by
          rw [List.reverse_append]

theorem splitMessage_eq_cut (ml : Nat) (hm : 0 < ml) (text : List Char) :
    splitMessage text ml =
      if ml < text.length then
        text.take (splitCut text ml) ::
          splitMessage (jsTrim (text.drop (splitCut text ml))) ml
      else if 0 < text.length then [text] else [] := by
  rw [splitMessage_eq ml hm text]
  rfl

theorem splitCut_bounds_cut (text : List Char) (ml : Nat) (hm : 0 < ml)
    (hlen : ml < text.length) :
    0 < splitCut text ml ∧ splitCut text ml ≤ ml ∧ splitCut text ml < text.length :=
  splitCut_bounds text ml hm hlen

/-- Reconstruction: the input is recovered by interleaving the chunks
with the whitespace runs the splitter removed at each cut and appending
the whitespace it trimmed off the end. -/
theorem splitMessage_reconstruct (ml : Nat) (hm : 0 < ml) :
    ∀ (n : Nat) (text : List Char), text.length ≤ n →
      ∃ seps trail,
        (∀ s ∈ seps, s.all isJsSpace = true) ∧ trail.all isJsSpace = true ∧
        text = interleave (splitMessage text ml) seps ++ trail ∧
        (text ≠ [] → seps.length + 1 = (splitMessage text ml).length) := by
  intro n
  induction n with
  | zero =>
      intro text hn
      have htext : text = [] := by
        simpa [List.length_eq_zero] using Nat.le_zero.mp hn
      subst htext
      exact ⟨[], [], by simp, rfl, by simp [splitMessage, splitMessageGo, interleave],
        fun h => absurd rfl h⟩
  | succ n ih =>
      intro text hn
      by_cases hlen : ml < text.length
      · have hb := splitCut_bounds_cut text ml hm hlen
        have hsplit := splitMessage_eq_cut ml hm text
        rw [if_pos hlen] at hsplit
        obtain ⟨pre, post, hpre, hpost, hdecomp⟩ :=
          jsTrim_decomp (text.drop (splitCut text ml))
        have hrlen : (jsTrim (text.drop (splitCut text ml))).length ≤ n := by
          have h1 : (jsTrim (text.drop (splitCut text ml))).length ≤
              (text.drop (splitCut text ml)).length := jsTrim_length_le _
          rw [List.length_drop] at h1
          omega
        by_cases hrnil : jsTrim (text.drop (splitCut text ml)) = []
        · refine ⟨[], text.drop (splitCut text ml), by simp, ?_, ?_, ?_⟩
          · rw [hdecomp, hrnil]
            simp [List.all_append, hpre, hpost]
          · rw [hsplit, hrnil]
            have hnil2 : splitMessage ([] : List Char) ml = [] := rfl
            rw [hnil2]
            simp [interleave]
          · intro _
            rw [hsplit, hrnil]
            have hnil2 : splitMessage ([] : List Char) ml = [] := rfl
            rw [hnil2]
            simp
        · obtain ⟨seps', trail', hs', ht', heq', hlen'⟩ :=
            ih (jsTrim (text.drop (splitCut text ml))) hrlen
          refine ⟨pre :: seps', trail' ++ post, ?_, ?_, ?_, ?_⟩
          · intro s hs
            rcases List.mem_cons.mp hs with rfl | hmem
            · exact hpre
            · exact hs' s hmem
          · simp [List.all_append, ht', hpost]
          · rw [hsplit]
            cases hchunks : splitMessage (jsTrim (text.drop (splitCut text ml))) ml with
            | nil =>
                exact absurd hchunks (splitMessage_ne_nil ml hm _ hrnil)
            | cons c cs =>
                rw [hchunks] at heq'
                calc text
                    = text.take (splitCut text ml) ++ text.drop (splitCut text ml) :=
                      (List.take_append_drop _ _).symm
                  _ = text.take (splitCut text ml) ++
                        (pre ++ jsTrim (text.drop (splitCut text ml)) ++ post) := by
                      rw [← hdecomp]
                  _ = text.take (splitCut text ml) ++
                        (pre ++ (interleave (c :: cs) seps' ++ trail') ++ post) := by
                      rw [← heq']
                  _ = interleave (text.take (splitCut text ml) :: c :: cs)
                        (pre :: seps') ++ (trail' ++ post) := by
                      simp [interleave, List.append_assoc]
          · intro _
            rw [hsplit]
            have hcount := hlen' hrnil
            simp only [List.length_cons]
            omega
      · by_cases hpos : 0 < text.length
        · refine ⟨[], [], by simp, rfl, ?_, ?_⟩
          · rw [splitMessage_eq_cut ml hm text, if_neg hlen, if_pos hpos]
            simp [interleave]
          · intro _
            rw [splitMessage_eq_cut ml hm text, if_neg hlen, if_pos hpos]
            rfl
        · have htext : text = [] := by
            simp only [Nat.pos_iff_ne_zero, ne_eq, not_not] at hpos
            simpa [List.length_eq_zero] using hpos
          subst htext
          exact ⟨[], [], by simp, rfl, by simp [splitMessage, splitMessageGo, interleave],
            fun h => absurd rfl h⟩

/-- **C10.** `splitMessage` is total (defined for every input by a
fuelled recursion whose fuel provably suffices), and at the fixed
maximum length 4096 every chunk it returns is non-empty and at most
4096 characters long — also when the input has no newline at or before
the boundary. -/
theorem splitMessage_chunks_nonempty_le_max (text : List Char) :
    ∀ chunk ∈ splitMessage text 4096, chunk ≠ [] ∧ chunk.length ≤ 4096 :=
  splitMessage_chunks 4096 (by norm_num) text.length text le_rfl

/-- **C10 witness.** A short input is returned whole as its one chunk,
non-empty and within bounds. -/
theorem splitMessage_chunks_nonempty_le_max_witness :
    ('h' :: 'i' :: []) ≠ ([] : List Char) ∧ ('h' :: 'i' :: []).length ≤ 4096 :=
  splitMessage_chunks_nonempty_le_max ('h' :: 'i' :: []) ('h' :: 'i' :: [])
    (by decide)

/-- **C5 amended.** For input longer than 4096 with a newline at an
index in `[1, 4096]`, the first chunk is cut exactly at the last such
newline (never mid-line), and the original is reproduced by
concatenating the chunks interleaved with the whitespace runs the
splitter removed at the cuts (each beginning with the cut newline)
plus a trailing whitespace run; with bare single-newline separators
the reconstruction can lose whitespace
(`splitMessage_single_newline_join_cex`). -/
theorem splitMessage_newline_cut_reconstruct_amended
    (text : List Char) (i : Nat) (hlen : 4096 < text.length)
    (hi1 : 1 ≤ i) (hi2 : i ≤ 4096) (hnl : text[i]? = some '\n') :
    (∃ i0, 1 ≤ i0 ∧ i0 ≤ 4096 ∧ text[i0]? = some '\n' ∧
      (∀ j, i0 < j → j ≤ 4096 → text[j]? ≠ some '\n') ∧
      (splitMessage text 4096).head? = some (text.take i0)) ∧
    (∃ seps trail,
      (∀ s ∈ seps, s.all isJsSpace = true) ∧ trail.all isJsSpace = true ∧
      seps.length + 1 = (splitMessage text 4096).length ∧
      text = interleave (splitMessage text 4096) seps ++ trail) := by
  have hm : (0 : Nat) < 4096 := by norm_num
  have hk : (i : Int) ≤ jsLastIndexOf text '\n' 4096 :=
    le_jsLastIndexOf_of_get text '\n' 4096 i hi2 hnl
  have hkpos : 0 < jsLastIndexOf text '\n' 4096 := by omega
  have hklt := jsLastIndexOf_lt text '\n' 4096
  have hcut : splitCut text 4096 = (jsLastIndexOf text '\n' 4096).toNat := by
    unfold splitCut
    rw [if_pos hkpos]
  constructor
  · refine ⟨(jsLastIndexOf text '\n' 4096).toNat, by omega, by omega,
      get_jsLastIndexOf text '\n' 4096 (le_of_lt hkpos), ?_, ?_⟩
    · intro j hj hj2 hcon
      have := le_jsLastIndexOf_of_get text '\n' 4096 j hj2 hcon
      omega
    · rw [splitMessage_eq_cut 4096 hm text, if_pos hlen, hcut]
      rfl
  · obtain ⟨seps, trail, hs, ht, heq, hcount⟩ :=
      splitMessage_reconstruct 4096 hm text.length text le_rfl
    have htne : text ≠ [] := by
      intro h
      rw [h] at hlen
      simp at hlen
    exact ⟨seps, trail, hs, ht, hcount htne, heq⟩

theorem ex5_length : ex5.length = 4100 := by
  unfold ex5
  rw [List.length_append, List.length_replicate]
  rfl

theorem ex5_get_4095 : ex5[4095]? = some '\n' := by
  unfold ex5
  rw [List.getElem?_append_right (by simp only [List.length_replicate, le_refl])]
  rw [List.length_replicate]
  rfl

theorem ex5_get_4096 : ex5[4096]? = some ' ' := by
  unfold ex5
  rw [List.getElem?_append_right
    (by simp only [List.length_replicate]; omega)]
  rw [List.length_replicate]
  rfl

theorem ex5_lastIndexOf : jsLastIndexOf ex5 '\n' 4096 = 4095 := by
  have hlow := le_jsLastIndexOf_of_get ex5 '\n' 4096 4095 (by norm_num) ex5_get_4095
  have hupper := (jsLastIndexOf_lt ex5 '\n' 4096).1
  by_cases h : jsLastIndexOf ex5 '\n' 4096 = 4095
  · exact h
  · exfalso
    have h46 : jsLastIndexOf ex5 '\n' 4096 = 4096 := by omega
    have hg := get_jsLastIndexOf ex5 '\n' 4096 (by omega)
    rw [h46] at hg
    rw [show ((4096 : Int).toNat) = 4096 from rfl, ex5_get_4096] at hg
    exact absurd (Option.some.inj hg) (by decide)

theorem ex5_split :
    splitMessage ex5 4096 = [List.replicate 4095 'a', 'b' :: 'b' :: []] := by
  have hm : (0 : Nat) < 4096 := by norm_num
  rw [splitMessage_eq_cut 4096 hm ex5, if_pos (by rw [ex5_length]; norm_num)]
  have hcut : splitCut ex5 4096 = 4095 := by
    unfold splitCut
    rw [ex5_lastIndexOf, if_pos (by norm_num : (0 : Int) < 4095)]
    rfl
  rw [hcut]
  have htake : ex5.take 4095 = List.replicate 4095 'a' := by
    have h := List.take_left (List.replicate 4095 'a')
      ('\n' :: ' ' :: ' ' :: 'b' :: 'b' :: [])
    rw [List.length_replicate] at h
    exact h
  have hdrop : ex5.drop 4095 = '\n' :: ' ' :: ' ' :: 'b' :: 'b' :: [] := by
    have h := List.drop_left (List.replicate 4095 'a')
      ('\n' :: ' ' :: ' ' :: 'b' :: 'b' :: [])
    rw [List.length_replicate] at h
    exact h
  rw [htake, hdrop]
  have htrim : jsTrim ('\n' :: ' ' :: ' ' :: 'b' :: 'b' :: []) = 'b' :: 'b' :: [] := by
    decide
  rw [htrim]
  have hbb : splitMessage ('b' :: 'b' :: []) 4096 = [('b' :: 'b' :: [])] := by decide
  rw [hbb]

/-- **C5 counterexample.** On `ex5` the splitter cuts at the newline at
index 4095, but the two spaces that started the following line are
trimmed away: joining the two chunks with the original single-newline
separator does not reproduce the input, and even all chunks together
hold three characters fewer than the input, so no placement of the
one-character original separator can recover it. -/
theorem splitMessage_single_newline_join_cex :
    splitMessage ex5 4096 = [List.replicate 4095 'a', 'b' :: 'b' :: []] ∧
    interleave [List.replicate 4095 'a', 'b' :: 'b' :: []] [('\n' :: [])] ≠ ex5 ∧
    (splitMessage ex5 4096).flatten.length + 3 = ex5.length := by
  refine ⟨ex5_split, ?_, ?_⟩
  · intro h
    have hl := congrArg List.length h
    rw [ex5_length] at hl
    simp only [interleave, List.append_nil, List.length_append, List.length_replicate,
      List.length_cons, List.length_nil] at hl
    omega
  · rw [ex5_split, ex5_length]
    simp only [List.flatten_cons, List.flatten_nil, List.append_nil, List.length_append,
      List.length_replicate, List.length_cons, List.length_nil]

/-- **C5 amended witness.** `ex5` satisfies the amended claim: its
first chunk is cut at the newline and whitespace-run separators
reconstruct it. -/
theorem splitMessage_newline_cut_reconstruct_amended_witness :
    (∃ i0, 1 ≤ i0 ∧ i0 ≤ 4096 ∧ ex5[i0]? = some '\n' ∧
      (∀ j, i0 < j → j ≤ 4096 → ex5[j]? ≠ some '\n') ∧
      (splitMessage ex5 4096).head? = some (ex5.take i0)) ∧
    (∃ seps trail,
      (∀ s ∈ seps, s.all isJsSpace = true) ∧ trail.all isJsSpace = true ∧
      seps.length + 1 = (splitMessage ex5 4096).length ∧
      ex5 = interleave (splitMessage ex5 4096) seps ++ trail) :=
  splitMessage_newline_cut_reconstruct_amended ex5 4095
    (by rw [ex5_length]; norm_num) (by norm_num) (by norm_num) ex5_get_4095

/-! ### C6: the fan-out run over three subscribers -/

theorem insertByDate_length (m : Message) :
    ∀ l : List Message, (insertByDate m l).length = l.length + 1 := by
  intro l
  induction l with
  | nil => rfl
  | cons x xs ih =>
      simp only [insertByDate]
      by_cases h : x.date ≤ m.date <;> simp [h, ih]

theorem sortByDate_length : ∀ l : List Message, (sortByDate l).length = l.length := by
  intro l
  induction l with
  | nil => rfl
  | cons x xs ih => simp [sortByDate, insertByDate_length, ih]

theorem batchProcessGo_eq_map {α β : Type} (f : α → β) (bs : Nat) (hbs : 0 < bs) :
    ∀ (fuel : Nat) (l : List α), l.length ≤ fuel →
      batchProcessGo f bs fuel l = l.map f := by
  intro fuel
  induction fuel with
  | zero =>
      intro l hl
      have : l = [] := by simpa [List.length_eq_zero] using Nat.le_zero.mp hl
      subst this
      rfl
  | succ fuel ih =>
      intro l hl
      cases l with
      | nil => rfl
      | cons x xs =>
          simp only [batchProcessGo]
          rw [ih ((x :: xs).drop bs)
            (by simp only [List.length_drop, List.length_cons] at hl ⊢; omega)]
          rw [← List.map_append, List.take_append_drop]

theorem batchProcess_eq_map {α β : Type} (f : α → β) (bs : Nat) (hbs : 0 < bs)
    (items : List α) : batchProcess bs items f = items.map f :=
  batchProcessGo_eq_map f bs hbs items.length items le_rfl

theorem flatten_filter_ne_nil {α : Type} :
    ∀ ls : List (List α), (ls.filter (fun l => !l.isEmpty)).flatten = ls.flatten := by
  intro ls
  induction ls with
  | nil => rfl
  | cons x xs ih =>
      cases x with
      | nil => simpa using ih
      | cons y ys => simpa using ih

/-- The flatten of any permutation of `[[], x, []]` is `x`. -/
theorem flatten_perm_three {α : Type} (ls : List (List α)) (x : List α)
    (h : ls.Perm [[], x, []]) : ls.flatten = x := by
  have hf := h.filter (fun l => !l.isEmpty)
  rw [← flatten_filter_ne_nil ls]
  by_cases hx : x.isEmpty
  · have hx' : x = [] := by simpa using hx
    subst hx'
    have : ls.filter (fun l => !l.isEmpty) = [] := by
      refine List.Perm.eq_nil ?_
      simpa using hf
    rw [this]
    rfl
  · have hfr : ([[], x, []] : List (List α)).filter (fun l => !l.isEmpty) = [x] := by
      simp [hx]
    rw [hfr] at hf
    rw [List.perm_singleton.mp hf]
    simp

theorem attemptTelegramParts_userId (env : SchedEnv) (uid chatId : String) :
    ∀ parts, ∀ s ∈ attemptTelegramParts env uid chatId parts, s.userId = uid := by
  intro parts
  induction parts with
  | nil => intro s hs; simp [attemptTelegramParts] at hs
  | cons p ps ih =>
      intro s hs
      simp only [attemptTelegramParts] at hs
      rcases List.mem_cons.mp hs with rfl | htail
      · rfl
      · cases henv : env.send .telegram chatId p with
        | none =>
            rw [henv] at htail
            exact ih s htail
        | some e =>
            rw [henv] at htail
            simp at htail

theorem dispatchPlatform_userId (env : SchedEnv) (uid : String) (pm : PlatformMap)
    (resp : AgentResponse) (p : Platform) :
    ∀ s ∈ dispatchPlatform env uid pm resp p, s.userId = uid := by
  intro s hs
  unfold dispatchPlatform at hs
  cases hc : pm.get p with
  | none => rw [hc] at hs; simp at hs
  | some chatId =>
      rw [hc] at hs
      by_cases he : chatId.isEmpty
      · simp [he] at hs
      · simp only [he, if_false, Bool.false_eq_true] at hs
        cases p with
        | slack =>
            simp at hs
            rw [hs]
        | telegram => exact attemptTelegramParts_userId env uid chatId _ s hs

theorem string_append_data_ne_nil (a b : String) (h : a.data ≠ []) :
    (a ++ b).data ≠ [] := by
  rw [String.data_append]
  intro hc
  exact h (List.append_eq_nil.mp hc).1

theorem telegramFormatTasks_data_ne_nil (ts : List TaskItem) (label : String) :
    (telegramFormatTasks ts label).data ≠ [] := by
  unfold telegramFormatTasks
  by_cases h : ts.length = 0
  · rw [if_pos h]
    exact string_append_data_ne_nil _ _
      (string_append_data_ne_nil _ _ (by decide))
  · rw [if_neg h]
    exact string_append_data_ne_nil _ _
      (string_append_data_ne_nil _ _
        (string_append_data_ne_nil _ _
          (string_append_data_ne_nil _ _ (by decide))))

theorem telegramFormat_ne_nil (r : AgentResponse) : telegramFormat r ≠ [] := by
  unfold telegramFormat
  intro h
  have hnil := List.map_eq_nil_iff.mp h
  refine splitMessage_ne_nil 4096 (by norm_num) _ ?_ hnil
  cases r with
  | err e =>
      show ("<b>Error</b>\n\nFailed to generate report. Please try again." :
        String).data ≠ []
      decide
  | ok d =>
      unfold telegramBuildContent
      exact string_append_data_ne_nil _ _
        (string_append_data_ne_nil _ _ (telegramFormatTasks_data_ne_nil _ _))

theorem attemptTelegramParts_ne_nil (env : SchedEnv) (uid chatId : String)
    (parts : List String) (h : parts ≠ []) :
    attemptTelegramParts env uid chatId parts ≠ [] := by
  cases parts with
  | nil => exact absurd rfl h
  | cons p ps =>
      simp only [attemptTelegramParts]
      exact List.cons_ne_nil _ _

theorem dispatchPlatform_ne_nil (env : SchedEnv) (uid : String) (pm : PlatformMap)
    (resp : AgentResponse) (p : Platform) (chatId : String)
    (hc : pm.get p = some chatId) (hne : ¬chatId.isEmpty) :
    dispatchPlatform env uid pm resp p ≠ [] := by
  unfold dispatchPlatform
  rw [hc]
  simp only [hne, if_false, Bool.false_eq_true, reduceIte]
  cases p with
  | slack => exact List.cons_ne_nil _ _
  | telegram => exact attemptTelegramParts_ne_nil env uid chatId _ (telegramFormat_ne_nil resp)

theorem processSubscription_no_messages (env : SchedEnv) (now : Nat) (st : KvState)
    (sub : Subscription) (h : st.messagesByUser sub.userId = []) :
    processSubscription env now st sub =
      (⟨false, sub.userId, some "no_messages"⟩, [], st) := by
  unfold processSubscription
  have hg : getMessagesByUserId st sub.userId = [] := by
    unfold getMessagesByUserId
    rw [h]
    rfl
  rw [hg]
  simp

theorem processSubscription_length_ne (st : KvState) (sub : Subscription)
    (hmsg : st.messagesByUser sub.userId ≠ []) :
    ¬(getMessagesByUserId st sub.userId).length = 0 := by
  unfold getMessagesByUserId
  rw [sortByDate_length]
  simpa [List.length_eq_zero] using hmsg

theorem processSubscription_gen_ok (env : SchedEnv) (now : Nat) (st : KvState)
    (sub : Subscription) (d : DailyWorkReport)
    (hmsg : st.messagesByUser sub.userId ≠ [])
    (hgen : env.agentCall (latestContent (getMessagesByUserId st sub.userId)) =
      .returns (.ok d)) :
    processSubscription env now st sub =
      (⟨true, sub.userId, none⟩,
       (sub.enabled.map (dispatchPlatform env sub.userId sub.platforms (.ok d))).flatten,
       updateLastSentAt sub.userId now st) := by
  unfold processSubscription
  rw [if_neg (processSubscription_length_ne st sub hmsg), hgen]

theorem processSubscription_gen_throws (env : SchedEnv) (now : Nat) (st : KvState)
    (sub : Subscription)
    (hmsg : st.messagesByUser sub.userId ≠ [])
    (hgen : env.agentCall (latestContent (getMessagesByUserId st sub.userId)) =
      .throws) :
    processSubscription env now st sub = (⟨false, sub.userId, some "error"⟩, [], st) := by
  unfold processSubscription
  rw [if_neg (processSubscription_length_ne st sub hmsg), hgen]

theorem processSubscription_gen_err (env : SchedEnv) (now : Nat) (st : KvState)
    (sub : Subscription) (e : String)
    (hmsg : st.messagesByUser sub.userId ≠ [])
    (hgen : env.agentCall (latestContent (getMessagesByUserId st sub.userId)) =
      .returns (.err e)) :
    processSubscription env now st sub = (⟨false, sub.userId, some e⟩, [], st) := by
  unfold processSubscription
  rw [if_neg (processSubscription_length_ne st sub hmsg), hgen]

/-- **C6 amended.** A fan-out run over any ordering of the three active
subscribers `A` (no stored entries), `B` (entry present, generator
succeeds, at least one enabled platform with a chat id) and `C` (entry
present, generator fails — by throwing or by returning an error whose
reason string is not the literal `"no_messages"`) reports counts
`{success: 1, no_messages: 1, error: 1}`, produces a result for every
subscriber (no failure aborts the run), and dispatches exactly `B`'s
message set: every attempted send belongs to `B`. -/
theorem runDailySummary_three_subscriber_counts_amended
    (env : SchedEnv) (now : Nat) (st : KvState) (batchSize : Nat)
    (subA subB subC : Subscription) (subs : List Subscription)
    (dB : DailyWorkReport) (pB : Platform) (cB : String)
    (hbs : 0 < batchSize)
    (hperm : subs.Perm [subA, subB, subC])
    (hA : st.messagesByUser subA.userId = [])
    (hBmsg : st.messagesByUser subB.userId ≠ [])
    (hBgen : env.agentCall (latestContent (getMessagesByUserId st subB.userId)) =
      .returns (.ok dB))
    (hCmsg : st.messagesByUser subC.userId ≠ [])
    (hCgen : env.agentCall (latestContent (getMessagesByUserId st subC.userId)) =
        .throws ∨
      ∃ e, e ≠ "no_messages" ∧
        env.agentCall (latestContent (getMessagesByUserId st subC.userId)) =
          .returns (.err e))
    (hpB : pB ∈ subB.enabled) (hcB : subB.platforms.get pB = some cB)
    (hcBne : ¬cB.isEmpty) :
    successCount (runDailySummary env now st batchSize subs).results = 1 ∧
    noMessagesCount (runDailySummary env now st batchSize subs).results = 1 ∧
    errorCount (runDailySummary env now st batchSize subs).results = 1 ∧
    (runDailySummary env now st batchSize subs).results.length = 3 ∧
    (runDailySummary env now st batchSize subs).sends =
      (processSubscription env now st subB).2.1 ∧
    (runDailySummary env now st batchSize subs).sends ≠ [] ∧
    (∀ s ∈ (runDailySummary env now st batchSize subs).sends,
      s.userId = subB.userId) := by
  obtain ⟨rsC, hrsC, hrC⟩ : ∃ rsn, rsn ≠ some "no_messages" ∧
      processSubscription env now st subC = (⟨false, subC.userId, rsn⟩, [], st) := by
    rcases hCgen with hCthrow | ⟨e, hen, hCerr⟩
    · exact ⟨some "error", by simp,
        processSubscription_gen_throws env now st subC hCmsg hCthrow⟩
    · exact ⟨some e, by simpa using hen,
        processSubscription_gen_err env now st subC e hCmsg hCerr⟩
  have hrA := processSubscription_no_messages env now st subA hA
  have hrB := processSubscription_gen_ok env now st subB dB hBmsg hBgen
  have hmapR : (runDailySummary env now st batchSize subs).results =
      subs.map (fun sub => (processSubscription env now st sub).1) := by
    unfold runDailySummary
    rw [batchProcess_eq_map _ _ hbs]
    simp only [List.map_map]
    rfl
  have hmapS : (runDailySummary env now st batchSize subs).sends =
      (subs.map (fun sub => (processSubscription env now st sub).2.1)).flatten := by
    unfold runDailySummary
    rw [batchProcess_eq_map _ _ hbs]
    simp only [List.map_map]
    rfl
  have hgA : (processSubscription env now st subA).1 =
      ⟨false, subA.userId, some "no_messages"⟩ := by rw [hrA]
  have hgB : (processSubscription env now st subB).1 = ⟨true, subB.userId, none⟩ := by
    rw [hrB]
  have hgC : (processSubscription env now st subC).1 = ⟨false, subC.userId, rsC⟩ := by
    rw [hrC]
  have hsA : (processSubscription env now st subA).2.1 = [] := by rw [hrA]
  have hsC : (processSubscription env now st subC).2.1 = [] := by rw [hrC]
  have hpermR : (subs.map (fun sub => (processSubscription env now st sub).1)).Perm
      [⟨false, subA.userId, some "no_messages"⟩, ⟨true, subB.userId, none⟩,
        ⟨false, subC.userId, rsC⟩] := by
    have h := hperm.map (fun sub => (processSubscription env now st sub).1)
    simpa [hgA, hgB, hgC] using h
  have hpermS : (subs.map (fun sub => (processSubscription env now st sub).2.1)).Perm
      [[], (processSubscription env now st subB).2.1, []] := by
    have h := hperm.map (fun sub => (processSubscription env now st sub).2.1)
    simpa [hsA, hsC] using h
  have hBsends : (processSubscription env now st subB).2.1 ≠ [] := by
    rw [hrB]
    intro hnil
    have hmem : dispatchPlatform env subB.userId subB.platforms (.ok dB) pB ∈
        subB.enabled.map (dispatchPlatform env subB.userId subB.platforms (.ok dB)) :=
      List.mem_map_of_mem _ hpB
    have hx := (List.flatten_eq_nil_iff.mp hnil) _ hmem
    exact dispatchPlatform_ne_nil env subB.userId subB.platforms (.ok dB) pB cB
      hcB hcBne hx
  refine ⟨?_, ?_, ?_, ?_, ?_, ?_, ?_⟩
  · rw [hmapR]
    unfold successCount
    rw [(hpermR.filter _).length_eq]
    simp [hrsC]
  · rw [hmapR]
    unfold noMessagesCount
    rw [(hpermR.filter _).length_eq]
    simp [hrsC]
  · rw [hmapR]
    unfold errorCount
    rw [(hpermR.filter _).length_eq]
    simp [hrsC]
  · rw [hmapR, List.length_map, hperm.length_eq]
    rfl
  · rw [hmapS]
    exact flatten_perm_three _ _ hpermS
  · rw [hmapS, flatten_perm_three _ _ hpermS]
    exact hBsends
  · intro s hs
    rw [hmapS, flatten_perm_three _ _ hpermS] at hs
    rw [hrB] at hs
    obtain ⟨l, hl, hsl⟩ := List.mem_flatten.mp hs
    obtain ⟨p, _, hpl⟩ := List.mem_map.mp hl
    rw [← hpl] at hsl
    exact dispatchPlatform_userId env subB.userId subB.platforms (.ok dB) p s hsl

set_option maxRecDepth 100000 in
/-- **C6 counterexample.** The scheduler distinguishes the
`no_messages` outcome from errors by comparing the reason string with
the literal `'no_messages'`.  When C's generator fails with exactly
that error string, the run over `{A, B, C}` reports
`{success: 1, no_messages: 2, error: 0}` instead of the claimed
`{success: 1, no_messages: 1, error: 1}`. -/
theorem runDailySummary_sentinel_reason_cex :
    successCount
      (runDailySummary c6envSentinel 0 c6store 10 [c6subA, c6subB, c6subC]).results
      = 1 ∧
    noMessagesCount
      (runDailySummary c6envSentinel 0 c6store 10 [c6subA, c6subB, c6subC]).results
      = 2 ∧
    errorCount
      (runDailySummary c6envSentinel 0 c6store 10 [c6subA, c6subB, c6subC]).results
      = 0 := by
  refine ⟨by decide, by decide, by decide⟩

set_option maxRecDepth 100000 in
/-- **C6 amended witness.** With C failing on an ordinary error string
the counts are `{1, 1, 1}`. -/
theorem runDailySummary_three_subscriber_counts_amended_witness :
    successCount
      (runDailySummary c6envPlain 0 c6store 10 [c6subA, c6subB, c6subC]).results
      = 1 ∧
    noMessagesCount
      (runDailySummary c6envPlain 0 c6store 10 [c6subA, c6subB, c6subC]).results
      = 1 ∧
    errorCount
      (runDailySummary c6envPlain 0 c6store 10 [c6subA, c6subB, c6subC]).results
      = 1 ∧
    (runDailySummary c6envPlain 0 c6store 10 [c6subA, c6subB, c6subC]).sends ≠ [] := by
  have h := runDailySummary_three_subscriber_counts_amended c6envPlain 0 c6store 10
    c6subA c6subB c6subC [c6subA, c6subB, c6subC] ⟨[], [], []⟩ .slack "cb"
    (by norm_num) (List.Perm.refl _) rfl (by decide) (by decide) (by decide)
    (Or.inr ⟨"boom", by decide, by decide⟩) (by decide) rfl (by decide)
  exact ⟨h.1, h.2.1, h.2.2.1, h.2.2.2.2.2.1⟩
